import Mathlib

/-!
Verification of the conversation-memory store (`llm/memory_manager.py`).

The Python source is shallowly embedded: the `MemoryManager` class becomes a
structure over an insertion-ordered association list (mirroring a Python
`dict`), every method becomes a pure function threading the store explicitly,
and wall-clock readings (`datetime.utcnow()`) become explicit `Nat` arguments.
Python string scraping (`str.split`, `str.strip`, `in`, `lower`, `upper`)
is modelled over `List Char` with the functions below; the case maps use
`Char.toLower`/`Char.toUpper`, which agree with Python's `str.lower()` /
`str.upper()` character by character on ASCII text but not on non-ASCII
text, where Python applies full Unicode case mapping.  Concrete theorems
below evaluate the heuristics only on ASCII inputs, and the one theorem
that quantifies over all queries carries an explicit ASCII hypothesis
delimiting the domain on which this embedding is exact.
List indexing `xs[i]`, which raises `IndexError` in Python when out of range,
is modelled with `Option`/`Except`.
-/

namespace MemAgent

/-- Python `s.startswith(p)` at the level of character lists: `p` is a prefix. -/
def charsStartWith : List Char → List Char → Bool
  | [], _ => true
  | _ :: _, [] => false
  | a :: as, b :: bs => a == b && charsStartWith as bs

/-- Python `p in s` (substring containment) at the level of character lists. -/
def containsSub (p : List Char) : List Char → Bool
  | [] => charsStartWith p []
  | c :: t => charsStartWith p (c :: t) || containsSub p t

/-- Worker for Python `s.split(sep)` with non-empty `sep`: scan left to
right, cutting at each non-overlapping occurrence of `p`.  `cur` is the
current piece accumulated in reverse; a positive `skip` means that many
characters of a just-matched separator remain to be consumed.  (The recursion
is structural in the scanned list so that concrete splits compute by
`rfl`.) -/
def splitOnGo (p : List Char) : List Char → Nat → List Char → List (List Char)
  | [], _, cur => [cur.reverse]
  | _ :: rest, skip + 1, cur => splitOnGo p rest skip cur
  | c :: rest, 0, cur =>
    if charsStartWith p (c :: rest) then
      cur.reverse :: splitOnGo p rest (p.length - 1) []
    else
      splitOnGo p rest 0 (c :: cur)

/-- Python `s.split(sep)`.  (Python raises `ValueError` on an empty separator;
the separators used in the source, `"from"` and `"FROM"`, are non-empty, so
that case is unreachable and mapped to `[l]`.) -/
def pySplitOn (l : List Char) (p : List Char) : List (List Char) :=
  if p.isEmpty then [l] else splitOnGo p l 0 []

/-- The whitespace class of Python `str.split()` restricted to ASCII
(space, tab, newline, carriage return, vertical tab, form feed). -/
def pyIsSpace (c : Char) : Bool :=
  decide (c.toNat = 32 ∨ c.toNat = 9 ∨ c.toNat = 10 ∨ c.toNat = 13 ∨
          c.toNat = 11 ∨ c.toNat = 12)

/-- Worker for Python `s.split()` (no separator): whitespace runs delimit
tokens and empty tokens are dropped; `cur` is the current token in reverse. -/
def wsSplitGo : List Char → List Char → List (List Char)
  | [], cur => if cur.isEmpty then [] else [cur.reverse]
  | c :: rest, cur =>
    if pyIsSpace c then
      if cur.isEmpty then wsSplitGo rest [] else cur.reverse :: wsSplitGo rest []
    else
      wsSplitGo rest (c :: cur)

/-- Python `s.split()` (split on whitespace runs, dropping empty tokens). -/
def pySplitWs (l : List Char) : List (List Char) :=
  wsSplitGo l []

/-- The backtick character, `chr 96`. -/
def backtickChar : Char := Char.ofNat 96

/-- Python `s.strip(t)` for a single strip character: remove every leading and
trailing occurrence of `t`. -/
def pyStripChar (l : List Char) (t : Char) : List Char :=
  ((l.dropWhile (fun c => c == t)).reverse.dropWhile (fun c => c == t)).reverse

/-- Python `s.lower()` on the ASCII text these heuristics see. -/
def strLower (s : String) : String := String.mk (s.data.map Char.toLower)

/-- Python `s.upper()` on the ASCII text these heuristics see. -/
def strUpper (s : String) : String := String.mk (s.data.map Char.toUpper)

/-- Python `l[start:]`: a negative start counts from the end, then the start
is clamped into `[0, len l]`. -/
def pySliceFrom {α : Type} (l : List α) (start : Int) : List α :=
  let n : Int := (l.length : Int)
  let s1 : Int := if start < 0 then start + n else start
  let s2 : Int := if s1 < 0 then 0 else if n < s1 then n else s1
  l.drop s2.toNat

/-! ### Data model

Mirrors the message / conversation dictionaries of `memory_manager.py`.
Python dict values that may be absent (`.get`) become `Option` fields. -/

/-- The `results_summary` dict attached to assistant messages:
`{row_count, columns, execution_time}`, each key optional (`.get` defaults). -/
structure ResultsSummary where
  row_count : Option Int
  columns : Option (List String)
  execution_time : Option Int
deriving DecidableEq

/-- One message dict as built in `add_message`. -/
structure Message where
  role : String
  content : String
  timestamp : Nat
  sql_query : Option String
  results_summary : Option ResultsSummary
deriving DecidableEq

/-- One conversation dict as built in `add_message`. -/
structure Conversation where
  session_id : String
  database : String
  messages : List Message
  created_at : Nat
  last_accessed : Nat
deriving DecidableEq

/-- The `MemoryManager` object.  `memory_store` is a Python dict keyed by the
conversation key: modelled as an insertion-ordered association list whose keys
are unique (Python dicts preserve insertion order; updates keep position,
fresh keys append at the end). -/
structure MemoryManager where
  memory_store : List (String × Conversation)
  max_conversations : Nat
  max_messages_per_conversation : Nat
deriving DecidableEq

/-- `MemoryManager.__init__` (defaults `max_conversations=10`,
`max_messages_per_conversation=20`). -/
def MemoryManager.init (max_conversations : Nat := 10)
    (max_messages_per_conversation : Nat := 20) : MemoryManager :=
  { memory_store := [],
    max_conversations := max_conversations,
    max_messages_per_conversation := max_messages_per_conversation }

/-! ### Python dict primitives over the association list -/

/-- Python `store[k]` lookup / `k in store` support. -/
def dictLookup (store : List (String × Conversation)) (k : String) :
    Option Conversation :=
  match store with
  | [] => none
  | (k2, v) :: rest => if k2 = k then some v else dictLookup rest k

/-- Python `k in store`. -/
def dictContains (store : List (String × Conversation)) (k : String) : Bool :=
  (dictLookup store k).isSome

/-- Python `store[k] = v`: update in place if the key exists, else append. -/
def dictInsert (store : List (String × Conversation)) (k : String)
    (v : Conversation) : List (String × Conversation) :=
  if dictContains store k then
    store.map (fun p => if p.1 = k then (k, v) else p)
  else
    store ++ [(k, v)]

/-- Python `del store[k]` (keys are unique, so removing every pair with key
`k` removes exactly the one entry). -/
def dictErase (store : List (String × Conversation)) (k : String) :
    List (String × Conversation) :=
  store.filter (fun p => p.1 ≠ k)

/-! ### Conversation key -/

/-- The pre-hash string `f"{session_id}_{database}"` of
`_get_conversation_key`. -/
def keyString (session_id database : String) : String :=
  session_id ++ "_" ++ database

/-- Stand-in for `hashlib.md5(...).hexdigest()`.  The store only relies on the
digest being a deterministic function of the input string (same input, same
digest), which holds for real MD5; the digest computation itself is opaque to
every claim, so it is modelled as the identity function on the input string. -/
def md5Hex (s : String) : String := s

/-- `_get_conversation_key`. -/
def get_conversation_key (session_id database : String) : String :=
  md5Hex (keyString session_id database)

/-! ### Eviction (`_cleanup_old_conversations`) -/

/-- Comparison key of `sorted(self.memory_store.items(), key=...['last_accessed'])`. -/
def laRel (p q : String × Conversation) : Prop :=
  p.2.last_accessed ≤ q.2.last_accessed

instance : DecidableRel laRel :=
  fun p q => Nat.decLe p.2.last_accessed q.2.last_accessed

instance : IsTotal (String × Conversation) laRel :=
  ⟨fun p q => Nat.le_total p.2.last_accessed q.2.last_accessed⟩

instance : IsTrans (String × Conversation) laRel :=
  ⟨fun _ _ _ h1 h2 => Nat.le_trans h1 h2⟩

/-- The `while len(store) > max: del store[conversations.pop(0)[0]]` loop.
`srt` is the sorted snapshot taken before the loop.  (With the snapshot a
permutation of the store — always the case at the call site — the snapshot
cannot run out before the bound is reached, so the `[]` fallback is
unreachable; Python would raise there.) -/
def cleanupLoop (srt : List (String × Conversation)) (maxC : Nat)
    (store : List (String × Conversation)) : List (String × Conversation) :=
  match srt with
  | [] => store
  | p :: rest =>
    if store.length ≤ maxC then store
    else cleanupLoop rest maxC (dictErase store p.1)

/-- The sorted snapshot `sorted(self.memory_store.items(), key=...)` taken
by `_cleanup_old_conversations` on a store. -/
def evictionSnapshot (mm : MemoryManager) : List (String × Conversation) :=
  List.insertionSort laRel mm.memory_store

/-- `_cleanup_old_conversations`: no-op while within bound, else sort the
snapshot ascending by `last_accessed` (Python's `sorted` is stable, as is
`List.insertionSort`) and delete from the front until within bound. -/
def cleanup_old_conversations (mm : MemoryManager) : MemoryManager :=
  if mm.memory_store.length ≤ mm.max_conversations then mm
  else
    { mm with
      memory_store :=
        cleanupLoop (evictionSnapshot mm) mm.max_conversations
          mm.memory_store }

/-! ### `add_message` -/

/-- `add_message` up to (and excluding) the `_cleanup_old_conversations`
call: upsert the conversation, append the message, update `last_accessed`,
trim the window to the last `max_messages_per_conversation` entries
(`messages[-max:]`).  `now` stands for the `datetime.utcnow()` readings of
the call. -/
def add_message_pre (mm : MemoryManager) (now : Nat)
    (session_id database role content : String)
    (sql_query : Option String := none)
    (results_summary : Option ResultsSummary := none) : MemoryManager :=
  let conv_key := get_conversation_key session_id database
  let conv :=
    match dictLookup mm.memory_store conv_key with
    | some c => c
    | none =>
      { session_id := session_id, database := database, messages := [],
        created_at := now, last_accessed := now }
  let message : Message :=
    { role := role, content := content, timestamp := now,
      sql_query := sql_query, results_summary := results_summary }
  let msgs := conv.messages ++ [message]
  let msgs :=
    if mm.max_messages_per_conversation < msgs.length then
      pySliceFrom msgs (-(mm.max_messages_per_conversation : Int))
    else msgs
  let conv := { conv with messages := msgs, last_accessed := now }
  { mm with memory_store := dictInsert mm.memory_store conv_key conv }

/-- `add_message` (the whole method: upsert + trim, then eviction). -/
def add_message (mm : MemoryManager) (now : Nat)
    (session_id database role content : String)
    (sql_query : Option String := none)
    (results_summary : Option ResultsSummary := none) : MemoryManager :=
  cleanup_old_conversations
    (add_message_pre mm now session_id database role content sql_query
      results_summary)

/-! ### Reads -/

/-- `get_conversation_history`: empty list for an unknown key; otherwise
update `last_accessed` and return `messages[-max_messages:] if max_messages
else messages` (Python int truthiness: any non-zero value selects the slice).
Returns the updated store together with the result. -/
def get_conversation_history (mm : MemoryManager) (now : Nat)
    (session_id database : String) (max_messages : Int := 10) :
    MemoryManager × List Message :=
  let conv_key := get_conversation_key session_id database
  match dictLookup mm.memory_store conv_key with
  | none => (mm, [])
  | some conv =>
    let conv2 := { conv with last_accessed := now }
    let mm2 := { mm with memory_store := dictInsert mm.memory_store conv_key conv2 }
    (mm2,
      if max_messages ≠ 0 then pySliceFrom conv2.messages (-max_messages)
      else conv2.messages)

/-- Python truthiness of `message.get('sql_query')`: `None` and the empty
string are falsy. -/
def optStrTruthy : Option String → Bool
  | none => false
  | some s => s ≠ ""

/-- Python truthiness of `message.get('results_summary')`: `None` and the
empty dict are falsy.  In this codebase a `results_summary` dict only ever
carries the three modelled keys, so the dict is empty exactly when all three
are absent. -/
def rsTruthy : Option ResultsSummary → Bool
  | none => false
  | some r => !(r.row_count.isNone && r.columns.isNone && r.execution_time.isNone)

/-- `get_conversation_summary`. -/
def get_conversation_summary (mm : MemoryManager) (now : Nat)
    (session_id database : String) : MemoryManager × String :=
  let (mm2, history) := get_conversation_history mm now session_id database 5
  if history.isEmpty then (mm2, "No previous conversation history.")
  else
    let last3 := pySliceFrom history (-3)
    let summary := last3.foldl
      (fun acc message =>
        if message.role = "user" then
          let acc := acc ++ "User asked: " ++ message.content ++ "\n"
          if optStrTruthy message.sql_query then
            acc ++ "SQL used: " ++ (message.sql_query.getD "") ++ "\n"
          else acc
        else if message.role = "assistant" then
          if rsTruthy message.results_summary then
            let results := message.results_summary.getD
              { row_count := none, columns := none, execution_time := none }
            let rc := results.row_count.getD 0
            let cols := String.intercalate ", " (results.columns.getD [])
            acc ++ s!"Found {rc} rows with columns: {cols}\n"
          else acc
        else acc)
      "Previous conversation context:\n"
    (mm2, summary)

/-! ### Heuristic table-name scraping

`get_schema_learning` (lines 103-109) computes, for a lowercased query,
`parts = sql.split('from'); if len(parts) > 1:
table_part = parts[1].split()[0].strip('`')` and accepts the token only if
`table_part and len(table_part) < 50`.  `get_conversation_insights`
(lines 252-254) computes, for an uppercased query,
`sql.split('FROM')[1].split()[0].strip('`')` with no acceptance check.
The `[0]` (and in insights the `[1]`) indexing raises `IndexError` when the
indexed list is empty; this is modelled with `Except`. -/

/-- Lines 100 and 103-107 of the source: lowercase the query, and when
`'from' in sql`, take the first whitespace token of `parts[1]` and strip
backticks.  `Except.error` is Python's `IndexError` from `.split()[0]`;
`.ok none` means the message is skipped (no `'from'`, or the
`len(parts) > 1` guard fails, which the `Option.get? 1` match models).
Caveat on the case map: `Char.toLower` performs the ASCII shift, which
coincides with Python's `str.lower()` character by character on ASCII text
but not beyond it — Python applies full Unicode case mapping, which can even
change the length of the string.  This definition is therefore an exact
model only on queries made of ASCII characters; every universally
quantified theorem about it below carries that restriction explicitly. -/
def schemaRawCandidate (s : List Char) : Except String (Option (List Char)) :=
  let sql := s.map Char.toLower
  if containsSub "from".data sql then
    match (pySplitOn sql "from".data).get? 1 with
    | none => Except.ok none
    | some part1 =>
      match (pySplitWs part1).head? with
      | none => Except.error "list index out of range"
      | some tok => Except.ok (some (pyStripChar tok backtickChar))
  else Except.ok none

/-- Line 108's acceptance check on top of `schemaRawCandidate`:
`if table_part and len(table_part) < 50`. -/
def schemaCandidate (s : List Char) : Except String (Option (List Char)) :=
  (schemaRawCandidate s).map
    (fun o => o.bind (fun t => if t ≠ [] ∧ t.length < 50 then some t else none))

/-- Python `set.add`: sets are modelled as duplicate-free lists in
first-insertion order (no claim depends on the iteration order of the
Python set). -/
def setAdd (l : List String) (x : String) : List String :=
  if x ∈ l then l else l ++ [x]

/-- The `for message in history` loop of `get_schema_learning`, accumulating
`learned_tables`.  (The column-indicator block of lines 112-119 is a
documented no-op: its inner branch is `pass`.) -/
def schema_tables_loop : List Message → List String → Except String (List String)
  | [], acc => Except.ok acc
  | m :: rest, acc =>
    if optStrTruthy m.sql_query then
      match schemaCandidate (m.sql_query.getD "").data with
      | Except.error e => Except.error e
      | Except.ok none => schema_tables_loop rest acc
      | Except.ok (some t) => schema_tables_loop rest (setAdd acc (String.mk t))
    else schema_tables_loop rest acc

/-- Return value of `get_schema_learning`; `columns` and `common_filters`
never receive entries. -/
structure SchemaLearning where
  tables : List String
  columns : List (String × String)
  common_filters : List (String × String)
deriving DecidableEq

/-- `get_schema_learning` (the history fetch uses the default
`max_messages=10`).  The second component is `Except.error` when the Python
call raises `IndexError`. -/
def get_schema_learning (mm : MemoryManager) (now : Nat)
    (session_id database : String) :
    MemoryManager × Except String SchemaLearning :=
  let (mm2, history) := get_conversation_history mm now session_id database 10
  (mm2,
    (schema_tables_loop history []).map
      (fun tabs => { tables := tabs, columns := [], common_filters := [] }))

/-- Lines 240 and 252-254 of the source: uppercase the query, and when
`'FROM' in sql`, take the first whitespace token of
`sql.split('FROM')[1]` and strip backticks.  Both indexings are unguarded in
the source, hence both can produce `Except.error` (`IndexError`).
Caveat on the case map: `Char.toUpper` performs the ASCII shift, which
coincides with Python's `str.upper()` character by character on ASCII text
only.  Python's full Unicode case mapping can create keyword occurrences an
ASCII map never produces (the ligature character U+FB00 uppercases to the
two-letter string `"FF"`, so a query containing it followed by `rom` gains a
`FROM` here while the lowercased scan of `get_schema_learning` sees no
`from`).  This definition is therefore an exact model only on queries made
of ASCII characters; every universally quantified theorem about it below
carries that restriction explicitly. -/
def insightsCandidate (s : List Char) : Except String (Option (List Char)) :=
  let sql := s.map Char.toUpper
  if containsSub "FROM".data sql then
    match (pySplitOn sql "FROM".data).get? 1 with
    | none => Except.error "list index out of range"
    | some part1 =>
      match (pySplitWs part1).head? with
      | none => Except.error "list index out of range"
      | some tok => Except.ok (some (pyStripChar tok backtickChar))
  else Except.ok none

/-- The `query_types` dict of `get_conversation_insights`. -/
structure QueryTypes where
  SELECT : Nat
  COUNT : Nat
  AGGREGATE : Nat
  FILTER : Nat
deriving DecidableEq

/-- Python `table_usage[k] = table_usage.get(k, 0) + 1` on an
insertion-ordered dict. -/
def bumpKey : List (String × Nat) → String → List (String × Nat)
  | [], k => [(k, 1)]
  | (k2, v) :: rest, k =>
    if k2 = k then (k2, v + 1) :: rest else (k2, v) :: bumpKey rest k

/-- The `for message in history` loop of `get_conversation_insights`
(lines 238-254): per query with a truthy `sql_query`, bump `COUNT` /
`AGGREGATE` / `FILTER` on substring matches against the uppercased text,
always bump `SELECT`, then tally the extracted table name. -/
def insights_loop :
    List Message → QueryTypes → List (String × Nat) →
      Except String (QueryTypes × List (String × Nat))
  | [], qt, tu => Except.ok (qt, tu)
  | m :: rest, qt, tu =>
    if optStrTruthy m.sql_query then
      let sql := (m.sql_query.getD "").data.map Char.toUpper
      let qt := { qt with COUNT := qt.COUNT + (if containsSub "COUNT(".data sql then 1 else 0) }
      let qt := { qt with AGGREGATE := qt.AGGREGATE +
        (if containsSub "SUM(".data sql || containsSub "AVG(".data sql ||
            containsSub "MAX(".data sql || containsSub "MIN(".data sql then 1 else 0) }
      let qt := { qt with FILTER := qt.FILTER + (if containsSub "WHERE".data sql then 1 else 0) }
      let qt := { qt with SELECT := qt.SELECT + 1 }
      match insightsCandidate (m.sql_query.getD "").data with
      | Except.error e => Except.error e
      | Except.ok none => insights_loop rest qt tu
      | Except.ok (some t) => insights_loop rest qt (bumpKey tu (String.mk t))
    else insights_loop rest qt tu

/-- `dt.hour` for a timestamp modelled as seconds since an epoch midnight. -/
def hourOfTimestamp (t : Nat) : Nat := t / 3600 % 24

/-- `_get_most_active_period`: bucket the average hour of day.  The float
average comparisons `5 <= sum(hours)/len(hours) < 12` are modelled exactly by
the integer comparisons `5*len <= sum < 12*len` (the operands are small
integers, so Python's float arithmetic is exact enough to agree).  The
`except`/`"Various times"` fallback guards `datetime.fromisoformat`, which
cannot fail on timestamps this model stores, so it is unreachable here. -/
def get_most_active_period (history : List Message) : String :=
  match history with
  | [] => "No activity"
  | _ =>
    let hours := history.map (fun m => hourOfTimestamp m.timestamp)
    let n := hours.length
    let s := hours.foldl (· + ·) 0
    if 5 * n ≤ s ∧ s < 12 * n then "Morning"
    else if 12 * n ≤ s ∧ s < 17 * n then "Afternoon"
    else if 17 * n ≤ s ∧ s < 22 * n then "Evening"
    else "Night"

/-- Return value of `get_conversation_insights`. -/
structure Insights where
  query_patterns : QueryTypes
  table_usage : List (String × Nat)
  total_interactions : Nat
  most_active_period : String
deriving DecidableEq

/-- `get_conversation_insights` (history fetch uses the default
`max_messages=10`).  `Except.error` is a Python `IndexError` escaping the
call. -/
def get_conversation_insights (mm : MemoryManager) (now : Nat)
    (session_id database : String) : MemoryManager × Except String Insights :=
  let (mm2, history) := get_conversation_history mm now session_id database 10
  (mm2,
    (insights_loop history { SELECT := 0, COUNT := 0, AGGREGATE := 0, FILTER := 0 } []).map
      (fun r =>
        { query_patterns := r.1, table_usage := r.2,
          total_interactions := (history.filter (fun m => m.role = "user")).length,
          most_active_period := get_most_active_period history }))

/-! ### Formatted history for display -/

/-- The projected `results` attached to a display item. -/
structure DisplayResults where
  row_count : Int
  columns : List String
  execution_time : Int
deriving DecidableEq

/-- One `history_item` of `get_formatted_conversation_history`. -/
structure DisplayItem where
  type : String
  timestamp : Nat
  content : String
  sql_query : Option String
  results : Option DisplayResults
  message_id : Nat
deriving DecidableEq

/-- The `stats` dict of `get_formatted_conversation_history`. -/
structure HistoryStats where
  total_queries : Nat
  total_rows_processed : Int
  session_duration : String
deriving DecidableEq

/-- Return value of `get_formatted_conversation_history`. -/
structure FormattedHistory where
  conversations : List DisplayItem
  stats : HistoryStats
deriving DecidableEq

/-- `_calculate_session_duration`: elapsed span between first and last
fetched timestamps.  Timestamps are `Nat` seconds, so
`datetime.fromisoformat` cannot fail and the `except`/`"Unknown duration"`
branch is unreachable; the `"{hours:.1f}"` float formatting is modelled by
truncated tenths (no claim exercises the hours branch). -/
def calculate_session_duration (history : List Message) : String :=
  match history with
  | [] => "0 minutes"
  | first :: _ =>
    let lastT := ((history.getLast?).getD first).timestamp
    let seconds := lastT - first.timestamp
    if seconds < 60 then "Less than 1 minute"
    else if seconds < 3600 then
      let minutes := seconds / 60
      s!"{minutes} minutes"
    else
      let tenths := seconds / 360
      let whole := tenths / 10
      let frac := tenths % 10
      s!"{whole}.{frac} hours"

/-- The `for i, message in enumerate(history)` loop of
`get_formatted_conversation_history`: one display item per user message,
pairing it with the immediately following assistant message when present
(`if i + 1 < len(history) and history[i+1]['role'] == 'assistant'`, which
`List.get?` models).  Also accumulates `total_queries` and `total_rows`. -/
def format_history_items (history : List Message) :
    List DisplayItem × Nat × Int :=
  history.enum.foldl
    (fun (acc : List DisplayItem × Nat × Int) (im : Nat × Message) =>
      let (items, total_queries, total_rows) := acc
      let (i, message) := im
      if message.role = "user" then
        let item0 : DisplayItem :=
          { type := "query", timestamp := message.timestamp,
            content := message.content, sql_query := none, results := none,
            message_id := i }
        match history.get? (i + 1) with
        | some assistant_msg =>
          if assistant_msg.role = "assistant" then
            let item1 := { item0 with sql_query := assistant_msg.sql_query }
            if rsTruthy assistant_msg.results_summary then
              let results := assistant_msg.results_summary.getD
                { row_count := none, columns := none, execution_time := none }
              let dr : DisplayResults :=
                { row_count := results.row_count.getD 0,
                  columns := results.columns.getD [],
                  execution_time := results.execution_time.getD 0 }
              (items ++ [{ item1 with results := some dr }],
                total_queries + 1, total_rows + results.row_count.getD 0)
            else (items ++ [item1], total_queries, total_rows)
          else (items ++ [item0], total_queries, total_rows)
        | none => (items ++ [item0], total_queries, total_rows)
      else acc)
    ([], 0, 0)

/-- `get_formatted_conversation_history`. -/
def get_formatted_conversation_history (mm : MemoryManager) (now : Nat)
    (session_id database : String) (max_messages : Int := 10) :
    MemoryManager × FormattedHistory :=
  let (mm2, history) := get_conversation_history mm now session_id database max_messages
  let r := format_history_items history
  (mm2,
    { conversations := r.1,
      stats :=
        { total_queries := r.2.1, total_rows_processed := r.2.2,
          session_duration := calculate_session_duration history } })

/-! ### Clearing -/

/-- `clear_conversation`. -/
def clear_conversation (mm : MemoryManager) (session_id database : String) :
    MemoryManager :=
  let conv_key := get_conversation_key session_id database
  if dictContains mm.memory_store conv_key then
    { mm with memory_store := dictErase mm.memory_store conv_key }
  else mm

/-- `clear_all_conversations`. -/
def clear_all_conversations (mm : MemoryManager) : MemoryManager :=
  { mm with memory_store := [] }

/-! ### Call traces -/

/-- The arguments of one `add_message` call (`now` standing for the wall
clock during the call). -/
structure AddCall where
  now : Nat
  session_id : String
  database : String
  role : String
  content : String
  sql_query : Option String
  results_summary : Option ResultsSummary
deriving DecidableEq

/-- Perform one recorded `add_message` call. -/
def applyCall (mm : MemoryManager) (c : AddCall) : MemoryManager :=
  add_message mm c.now c.session_id c.database c.role c.content c.sql_query
    c.results_summary

/-- Perform a sequence of `add_message` calls in order. -/
def runTrace (mm : MemoryManager) (calls : List AddCall) : MemoryManager :=
  calls.foldl applyCall mm

/-- One `add_message` call into a fixed conversation (no session/database
arguments: they are supplied when the trace is run). -/
structure MsgCall where
  now : Nat
  role : String
  content : String
  sql_query : Option String
  results_summary : Option ResultsSummary
deriving DecidableEq

/-- Lift a `MsgCall` to an `AddCall` on the conversation `(s, d)`. -/
def msgCallTo (s d : String) (c : MsgCall) : AddCall :=
  { now := c.now, session_id := s, database := d, role := c.role,
    content := c.content, sql_query := c.sql_query,
    results_summary := c.results_summary }

/-- Run a fresh store through a sequence of `add_message` calls that all
target the single conversation `(s, d)`. -/
def runTraceOn (maxC maxM : Nat) (s d : String) (items : List MsgCall) :
    MemoryManager :=
  runTrace (MemoryManager.init maxC maxM) (items.map (msgCallTo s d))

/-- The message dict that `add_message` appends for a given call. -/
def mkMessage (c : MsgCall) : Message :=
  { role := c.role, content := c.content, timestamp := c.now,
    sql_query := c.sql_query, results_summary := c.results_summary }

/-- Perform the pre-eviction part of one recorded `add_message` call
(so that `applyCall mm c = cleanup_old_conversations (applyCallPre mm c)`
holds by definition). -/
def applyCallPre (mm : MemoryManager) (c : AddCall) : MemoryManager :=
  add_message_pre mm c.now c.session_id c.database c.role c.content
    c.sql_query c.results_summary

/-- The window-trimming step of `add_message` on a message list: append,
then `messages[-max:]` when over the cap. -/
def stepMessages (maxM : Nat) (msgs : List Message) (m : Message) :
    List Message :=
  let ms := msgs ++ [m]
  if maxM < ms.length then pySliceFrom ms (-(maxM : Int)) else ms

/-- The effect of one `add_message` call on an already existing conversation
record: append the message, trim the window, update `last_accessed`. -/
def convApply (maxM : Nat) (conv : Conversation) (c : MsgCall) : Conversation :=
  { conv with
    messages := stepMessages maxM conv.messages (mkMessage c),
    last_accessed := c.now }

/-- The fresh conversation record `add_message` creates for an unknown key
(before the message is appended). -/
def freshConv (s d : String) (now : Nat) : Conversation :=
  { session_id := s, database := d, messages := [], created_at := now,
    last_accessed := now }

/-- The conversations the eviction loop deletes, in deletion order: the
first `len(store) - max_conversations` entries of the sorted snapshot. -/
def evictedOf (mm : MemoryManager) : List (String × Conversation) :=
  (evictionSnapshot mm).take (mm.memory_store.length - mm.max_conversations)

/-! ### Concrete example stores used by the concrete-input theorems -/

/-- A store holding one conversation with the two SQL queries of the
insights example. -/
def exC4 : MemoryManager :=
  add_message
    (add_message MemoryManager.init 1 "s" "db" "user" "q1"
      (some "SELECT * FROM orders WHERE id=1") none)
    2 "s" "db" "assistant" "a1" (some "SELECT COUNT(*) FROM orders") none

/-- A store holding one conversation whose single message carries the
malformed query `"select * from"` (text contains `from` with no following
token). -/
def exC3 : MemoryManager :=
  add_message MemoryManager.init 1 "s" "db" "user" "q" (some "select * from") none

/-- A fresh conversation: a user message followed by an assistant message
whose `results_summary` is `{row_count: 3, columns: [a, b]}`. -/
def exC7 : MemoryManager :=
  add_message
    (add_message MemoryManager.init 100 "s" "db" "user" "show stuff" none none)
    130 "s" "db" "assistant" "here" (some "SELECT 1")
    (some { row_count := some 3, columns := some ["a", "b"], execution_time := none })

/-- A store whose single stored SQL query is `"select * from orders"`. -/
def exC5 : MemoryManager :=
  add_message MemoryManager.init 1 "s" "db" "user" "q"
    (some "select * from orders") none

/-- A 50-character table token made of digits (digits are fixed by both case
maps, so the same token reaches both acceptance checks). -/
def longTable : String := "01234567890123456789012345678901234567890123456789"

/-- A store whose single stored SQL query names the 50-character table. -/
def exC5b : MemoryManager :=
  add_message MemoryManager.init 1 "s" "db" "user" "q"
    (some ("select * from " ++ longTable)) none

/-- A conversation holding exactly one user message `"show sales"` with no
SQL query. -/
def exC8 : MemoryManager :=
  add_message MemoryManager.init 1 "s" "db" "user" "show sales" none none

/-- A store fed one message under the pair `("a_b", "c")`. -/
def exC9 : MemoryManager :=
  add_message MemoryManager.init 1 "a_b" "c" "user" "hi" none none

/-- A store with one three-message conversation (for the history-slicing
theorems). -/
def exHist : MemoryManager :=
  runTraceOn 10 20 "s" "db"
    [{ now := 1, role := "user", content := "m1", sql_query := none, results_summary := none },
     { now := 2, role := "user", content := "m2", sql_query := none, results_summary := none },
     { now := 3, role := "user", content := "m3", sql_query := none, results_summary := none }]

/-- Three concrete calls into one conversation (witness input for the
window-trimming theorem, run with a cap of 2 messages). -/
def exItems : List MsgCall :=
  [{ now := 1, role := "user", content := "m1", sql_query := none, results_summary := none },
   { now := 2, role := "user", content := "m2", sql_query := none, results_summary := none },
   { now := 3, role := "user", content := "m3", sql_query := none, results_summary := none }]

/-- The conversation record that `exHist` holds (used to discharge the
lookup hypotheses of the history-slicing theorems at a concrete input). -/
def convHist : Conversation :=
  { session_id := "s", database := "db",
    messages :=
      [{ role := "user", content := "m1", timestamp := 1, sql_query := none,
         results_summary := none },
       { role := "user", content := "m2", timestamp := 2, sql_query := none,
         results_summary := none },
       { role := "user", content := "m3", timestamp := 3, sql_query := none,
         results_summary := none }],
    created_at := 1, last_accessed := 3 }

/-! ### Character-level facts about the ASCII case maps -/

theorem char_toNat_ofNat (n : Nat) (h : n < 55296) : (Char.ofNat n).toNat = n := by
  have hv : n.isValidChar := Or.inl h
  unfold Char.ofNat
  rw [dif_pos hv]
  rfl

theorem char_eq_iff_toNat {c d : Char} : c = d ↔ c.toNat = d.toNat := by
  constructor
  · intro h; rw [h]
  · intro h; exact Char.eq_of_val_eq (UInt32.ext h)

theorem toNat_toLower (c : Char) :
    (Char.toLower c).toNat =
      if 65 ≤ c.toNat ∧ c.toNat ≤ 90 then c.toNat + 32 else c.toNat := by
  simp only [Char.toLower]
  by_cases h : 65 ≤ c.toNat ∧ c.toNat ≤ 90
  · rw [if_pos ⟨h.1, h.2⟩, if_pos h]
    exact char_toNat_ofNat (c.toNat + 32) (by omega)
  · rw [if_neg (fun hc => h ⟨hc.1, hc.2⟩), if_neg h]

theorem toNat_toUpper (c : Char) :
    (Char.toUpper c).toNat =
      if 97 ≤ c.toNat ∧ c.toNat ≤ 122 then c.toNat - 32 else c.toNat := by
  simp only [Char.toUpper]
  by_cases h : 97 ≤ c.toNat ∧ c.toNat ≤ 122
  · rw [if_pos ⟨h.1, h.2⟩, if_pos h]
    exact char_toNat_ofNat (c.toNat - 32) (by omega)
  · rw [if_neg (fun hc => h ⟨hc.1, hc.2⟩), if_neg h]

/-! ### Concrete-input claim theorems -/

/-- C8: `get_conversation_summary` on a conversation with no stored messages
returns the fixed no-history sentinel text; on a conversation holding exactly
one user message `"show sales"` with no SQL query, it returns text containing
`"User asked: show sales"` and containing no `"SQL used:"` line. -/
theorem claim_C8 :
    (get_conversation_summary MemoryManager.init 1 "s" "db").2 =
      "No previous conversation history." ∧
    containsSub "User asked: show sales".data
      (get_conversation_summary exC8 2 "s" "db").2.data = true ∧
    containsSub "SQL used:".data
      (get_conversation_summary exC8 2 "s" "db").2.data = false := by
  refine ⟨rfl, rfl, rfl⟩

/-- C9: the conversation key is not injective over distinct
`(session_id, database)` pairs: `("a_b", "c")` and `("a", "b_c")` are
distinct yet produce the same key, so a message added under the first pair is
returned by `get_conversation_history` under the second. -/
theorem claim_C9 :
    (("a_b", "c") ≠ (("a" : String), ("b_c" : String))) ∧
    get_conversation_key "a_b" "c" = get_conversation_key "a" "b_c" ∧
    (get_conversation_history exC9 2 "a" "b_c" 10).2 =
      [{ role := "user", content := "hi", timestamp := 1, sql_query := none,
         results_summary := none }] := by
  refine ⟨by decide, rfl, rfl⟩

/-- C4, counterexample: on the conversation carrying exactly the SQL queries
`"SELECT * FROM orders WHERE id=1"` and `"SELECT COUNT(*) FROM orders"`,
`get_conversation_insights` reports `table_usage = {ORDERS: 2}` — the key is
uppercased — not the claimed `{orders: 2}`. -/
theorem claim_C4_cex :
    (get_conversation_insights exC4 3 "s" "db").2.toOption.map Insights.table_usage =
      some [("ORDERS", 2)] ∧
    (get_conversation_insights exC4 3 "s" "db").2.toOption.map Insights.table_usage ≠
      some [("orders", 2)] := by
  refine ⟨rfl, by decide⟩

/-- C4, amended: on that conversation `get_conversation_insights` returns
`query_patterns` with `SELECT == 2`, `FILTER == 1`, `COUNT == 1`, and
`table_usage` equal to the mapping `{ORDERS: 2}` (the extraction works on an
uppercased copy of the query, so the tallied key is uppercased). -/
theorem claim_C4 :
    (get_conversation_insights exC4 3 "s" "db").2.toOption.map
        (fun r => (r.query_patterns.SELECT, r.query_patterns.FILTER,
                   r.query_patterns.COUNT, r.table_usage)) =
      some (2, 1, 1, [("ORDERS", 2)]) := by
  rfl

/-- C3: the claim is right and the code is wrong.  On a stored message whose
`sql_query` is `"select * from"` (the keyword with no following token), both
`get_schema_learning` and `get_conversation_insights` hit `.split()[0]` on an
empty token list and raise `IndexError` instead of skipping the malformed
entry, contradicting the spec's error-handling design (§7). -/
theorem claim_C3 :
    (get_schema_learning exC3 2 "s" "db").2 =
      Except.error "list index out of range" ∧
    (get_conversation_insights exC3 2 "s" "db").2 =
      Except.error "list index out of range" := by
  refine ⟨rfl, rfl⟩

/-- C7: after appending a user message and then an assistant message whose
`results_summary` is `{row_count: 3, columns: [a, b]}` to a fresh
conversation, `get_formatted_conversation_history` returns exactly one
display item, that item's `results.row_count == 3` and
`results.columns == [a, b]`, and the stats report `total_queries == 1` and
`total_rows_processed == 3`. -/
theorem claim_C7 :
    (get_formatted_conversation_history exC7 131 "s" "db" 10).2.conversations.map
        DisplayItem.results =
      [some { row_count := 3, columns := ["a", "b"], execution_time := 0 }] ∧
    (get_formatted_conversation_history exC7 131 "s" "db" 10).2.stats.total_queries = 1 ∧
    (get_formatted_conversation_history exC7 131 "s" "db" 10).2.stats.total_rows_processed = 3 := by
  refine ⟨rfl, rfl, rfl⟩

/-! ### Python slicing facts -/

theorem pySliceFrom_neg {α : Type} (l : List α) (m : Int) (h : 0 < m) :
    pySliceFrom l (-m) = l.drop (l.length - m.toNat) := by
  unfold pySliceFrom
  dsimp only
  rw [if_pos (by omega : -m < 0)]
  split_ifs with h1 h2
  · congr 1
    omega
  · congr 1
    omega
  · congr 1
    omega

theorem pySliceFrom_nonneg {α : Type} (l : List α) (k : Int) (h : 0 ≤ k) :
    pySliceFrom l k = l.drop k.toNat := by
  unfold pySliceFrom
  dsimp only
  rw [if_neg (by omega : ¬k < 0)]
  split_ifs with h1 h2
  · omega
  · rw [show ((l.length : Int)).toNat = l.length by omega]
    rw [List.drop_length]
    rw [List.drop_eq_nil_of_le (by omega)]
  · rfl

/-- C6: `get_conversation_history` returns the empty sequence (never an
error) when the key is absent; when the key is present it returns the last
`max_messages` stored messages in chronological order (the stored window with
all but the last `max_messages` entries dropped), and when `max_messages` is
zero (Python falsy) it returns the full stored window. -/
theorem claim_C6 (mm : MemoryManager) (now : Nat) (s d : String) (m : Int) :
    (dictLookup mm.memory_store (get_conversation_key s d) = none →
      (get_conversation_history mm now s d m).2 = []) ∧
    (∀ conv, dictLookup mm.memory_store (get_conversation_key s d) = some conv →
      (0 < m →
        (get_conversation_history mm now s d m).2 =
          conv.messages.drop (conv.messages.length - m.toNat)) ∧
      (m = 0 →
        (get_conversation_history mm now s d m).2 = conv.messages)) := by
  constructor
  · intro h
    unfold get_conversation_history
    dsimp only
    rw [h]
  · intro conv h
    constructor
    · intro hm
      unfold get_conversation_history
      dsimp only
      rw [h]
      dsimp only
      rw [if_pos (by omega : m ≠ 0)]
      exact pySliceFrom_neg conv.messages m hm
    · intro hm
      subst hm
      unfold get_conversation_history
      dsimp only
      rw [h]
      simp

/-- C6, witness: the theorem applied to a concrete three-message store (last
two messages for `max_messages = 2`) and to the empty store (unknown key). -/
theorem claim_C6_witness :
    (get_conversation_history exHist 4 "s" "db" 2).2 =
      convHist.messages.drop (convHist.messages.length - (2 : Int).toNat) ∧
    (get_conversation_history MemoryManager.init 4 "s" "db" 5).2 = [] :=
  ⟨((claim_C6 exHist 4 "s" "db" 2).2 convHist rfl).1 (by decide),
   (claim_C6 MemoryManager.init 4 "s" "db" 5).1 rfl⟩

/-- C10: for a stored conversation and a negative `max_messages`,
`get_conversation_history` returns the stored window with its first
`|max_messages|` (oldest) messages dropped, rather than the most recent
`|max_messages|` messages or an error (`messages[-max_messages:]` with a
negative argument is a positive-start slice). -/
theorem claim_C10 (mm : MemoryManager) (now : Nat) (s d : String) (m : Int)
    (hm : m < 0) :
    ∀ conv, dictLookup mm.memory_store (get_conversation_key s d) = some conv →
      (get_conversation_history mm now s d m).2 =
        conv.messages.drop (-m).toNat := by
  intro conv h
  unfold get_conversation_history
  dsimp only
  rw [h]
  dsimp only
  rw [if_pos (by omega : m ≠ 0)]
  exact pySliceFrom_nonneg conv.messages (-m) (by omega)

/-- C10, witness: the theorem applied to the concrete three-message store
with `max_messages = -2` (the two oldest messages are dropped). -/
theorem claim_C10_witness :
    (get_conversation_history exHist 4 "s" "db" (-2)).2 =
      convHist.messages.drop (-(-2 : Int)).toNat :=
  claim_C10 exHist 4 "s" "db" (-2) (by decide) convHist rfl

/-! ### Window trimming (claim C2) -/

theorem stepMessages_window (maxM : Nat) (h2 : 1 ≤ maxM) (W : List Message)
    (m : Message) :
    stepMessages maxM (W.drop (W.length - maxM)) m =
      (W ++ [m]).drop (W.length + 1 - maxM) := by
  unfold stepMessages
  dsimp only
  by_cases hw : W.length < maxM
  · rw [show W.length - maxM = 0 by omega, List.drop_zero]
    rw [if_neg (by simp; omega)]
    rw [show W.length + 1 - maxM = 0 by omega, List.drop_zero]
  · have hlen : (W.drop (W.length - maxM)).length = maxM := by
      simp only [List.length_drop]; omega
    rw [if_pos (by simp [hlen])]
    rw [pySliceFrom_neg _ (maxM : Int) (by exact_mod_cast h2)]
    rw [show ((maxM : Int)).toNat = maxM by omega]
    rw [show (W.drop (W.length - maxM) ++ [m]).length - maxM = 1 by
      simp only [List.length_append, hlen, List.length_singleton]; omega]
    rw [List.drop_append_of_le_length (by omega : 1 ≤ (W.drop (W.length - maxM)).length)]
    rw [List.drop_drop]
    rw [List.drop_append_of_le_length (by omega : W.length + 1 - maxM ≤ W.length)]
    congr 2
    omega

theorem dictLookup_singleton_same (k : String) (v : Conversation) :
    dictLookup [(k, v)] k = some v := by
  simp [dictLookup]

theorem dictInsert_singleton_same (k : String) (v w : Conversation) :
    dictInsert [(k, v)] k w = [(k, w)] := by
  simp [dictInsert, dictContains, dictLookup_singleton_same]

theorem applyCall_single (maxC maxM : Nat) (h1 : 1 ≤ maxC) (s d : String)
    (conv : Conversation) (c : MsgCall) :
    applyCall
      { memory_store := [(get_conversation_key s d, conv)],
        max_conversations := maxC, max_messages_per_conversation := maxM }
      (msgCallTo s d c) =
    { memory_store := [(get_conversation_key s d, convApply maxM conv c)],
      max_conversations := maxC, max_messages_per_conversation := maxM } := by
  unfold applyCall add_message add_message_pre
  dsimp only [msgCallTo]
  rw [dictLookup_singleton_same]
  dsimp only
  rw [dictInsert_singleton_same]
  unfold cleanup_old_conversations
  dsimp only
  rw [if_pos (by simpa using h1)]
  rfl

theorem applyCall_empty (maxC maxM : Nat) (h1 : 1 ≤ maxC) (s d : String)
    (c : MsgCall) :
    applyCall (MemoryManager.init maxC maxM) (msgCallTo s d c) =
    { memory_store :=
        [(get_conversation_key s d, convApply maxM (freshConv s d c.now) c)],
      max_conversations := maxC, max_messages_per_conversation := maxM } := by
  unfold applyCall add_message add_message_pre
  dsimp only [msgCallTo, MemoryManager.init]
  unfold dictLookup dictInsert dictContains dictLookup
  dsimp only
  unfold cleanup_old_conversations
  dsimp only
  rw [if_pos (by simpa using h1)]
  rfl

theorem runTrace_single (maxC maxM : Nat) (h1 : 1 ≤ maxC) (s d : String) :
    ∀ (items : List MsgCall) (conv : Conversation),
      runTrace
        { memory_store := [(get_conversation_key s d, conv)],
          max_conversations := maxC, max_messages_per_conversation := maxM }
        (items.map (msgCallTo s d)) =
      { memory_store :=
          [(get_conversation_key s d, items.foldl (convApply maxM) conv)],
        max_conversations := maxC, max_messages_per_conversation := maxM } := by
  intro items
  induction items with
  | nil => intro conv; rfl
  | cons c rest ih =>
    intro conv
    unfold runTrace
    simp only [List.map_cons, List.foldl_cons]
    rw [show List.foldl applyCall
        (applyCall
          { memory_store := [(get_conversation_key s d, conv)],
            max_conversations := maxC, max_messages_per_conversation := maxM }
          (msgCallTo s d c))
        (rest.map (msgCallTo s d)) =
      runTrace
        (applyCall
          { memory_store := [(get_conversation_key s d, conv)],
            max_conversations := maxC, max_messages_per_conversation := maxM }
          (msgCallTo s d c))
        (rest.map (msgCallTo s d)) from rfl]
    rw [applyCall_single maxC maxM h1 s d conv c]
    exact ih (convApply maxM conv c)

theorem foldl_convApply_messages (maxM : Nat) (h2 : 1 ≤ maxM) :
    ∀ (items : List MsgCall) (conv : Conversation) (W : List Message),
      conv.messages = W.drop (W.length - maxM) →
      (items.foldl (convApply maxM) conv).messages =
        (W ++ items.map mkMessage).drop
          ((W ++ items.map mkMessage).length - maxM) := by
  intro items
  induction items with
  | nil => intro conv W hW; simpa using hW
  | cons c rest ih =>
    intro conv W hW
    simp only [List.foldl_cons, List.map_cons]
    have h3 : (convApply maxM conv c).messages =
        (W ++ [mkMessage c]).drop ((W ++ [mkMessage c]).length - maxM) := by
      unfold convApply
      dsimp only
      rw [hW, stepMessages_window maxM h2 W (mkMessage c)]
      congr 1
      simp only [List.length_append, List.length_singleton]
    have h4 := ih (convApply maxM conv c) (W ++ [mkMessage c]) h3
    rw [h4]
    congr 1 <;> simp

theorem history_zero (mm : MemoryManager) (now : Nat) (s d : String)
    (conv : Conversation)
    (h : dictLookup mm.memory_store (get_conversation_key s d) = some conv) :
    (get_conversation_history mm now s d 0).2 = conv.messages := by
  unfold get_conversation_history
  dsimp only
  rw [h]
  simp

/-- C2: for every sequence of `add_message` calls into one conversation
(fresh store, positive configuration as specified in §6), after each call the
conversation's stored message window is exactly the sequence of appended
messages with all but the last `max_messages_per_conversation` dropped: the
count is at most the cap and the retained messages are exactly the most
recently appended ones in call order.  (Every prefix of a call sequence is
itself a call sequence, so this settles the after-each-call form.) -/
theorem claim_C2 (maxC maxM : Nat) (h1 : 1 ≤ maxC) (h2 : 1 ≤ maxM)
    (s d : String) (items : List MsgCall) (now2 : Nat) :
    (get_conversation_history (runTraceOn maxC maxM s d items) now2 s d 0).2 =
      (items.map mkMessage).drop (items.length - maxM) := by
  cases items with
  | nil =>
    simp only [List.map_nil, List.drop_nil]
    rfl
  | cons c rest =>
    unfold runTraceOn runTrace
    simp only [List.map_cons, List.foldl_cons]
    rw [show List.foldl applyCall
        (applyCall (MemoryManager.init maxC maxM) (msgCallTo s d c))
        (rest.map (msgCallTo s d)) =
      runTrace (applyCall (MemoryManager.init maxC maxM) (msgCallTo s d c))
        (rest.map (msgCallTo s d)) from rfl]
    rw [applyCall_empty maxC maxM h1 s d c]
    rw [runTrace_single maxC maxM h1 s d rest (convApply maxM (freshConv s d c.now) c)]
    rw [history_zero _ now2 s d _ (dictLookup_singleton_same _ _)]
    have hbase : (convApply maxM (freshConv s d c.now) c).messages =
        [mkMessage c].drop (([] ++ [mkMessage c]).length - maxM) := by
      unfold convApply freshConv stepMessages
      dsimp only
      rw [if_neg (by simp; omega)]
      simp only [List.nil_append, List.length_singleton]
      rw [show 1 - maxM = 0 by omega, List.drop_zero]
    have h5 := foldl_convApply_messages maxM h2 rest
      (convApply maxM (freshConv s d c.now) c) [mkMessage c] (by simpa using hbase)
    rw [h5]
    congr 1
    simp

/-- C2, witness: three calls into one conversation with a cap of 2 retain
exactly the last two messages. -/
theorem claim_C2_witness :
    (get_conversation_history (runTraceOn 10 2 "s" "db" exItems) 4 "s" "db" 0).2 =
      (exItems.map mkMessage).drop (exItems.length - 2) :=
  claim_C2 10 2 (by decide) (by decide) "s" "db" exItems 4

/-! ### Eviction (claim C1) -/

theorem dictContains_iff (store : List (String × Conversation)) (k : String) :
    dictContains store k = true ↔ k ∈ store.map Prod.fst := by
  induction store with
  | nil => simp [dictContains, dictLookup]
  | cons p rest ih =>
    unfold dictContains dictLookup
    by_cases hp : p.1 = k
    · rw [if_pos hp, List.map_cons, hp]
      simp
    · rw [if_neg hp, List.map_cons, List.mem_cons]
      unfold dictContains at ih
      constructor
      · intro h
        exact Or.inr (ih.mp h)
      · intro h
        rcases h with h | h
        · exact absurd h.symm hp
        · exact ih.mpr h

theorem nodup_keys_dictInsert (store : List (String × Conversation))
    (k : String) (v : Conversation) (h : (store.map Prod.fst).Nodup) :
    ((dictInsert store k v).map Prod.fst).Nodup := by
  unfold dictInsert
  split_ifs with hc
  · have hf : (store.map (fun p => if p.1 = k then (k, v) else p)).map Prod.fst =
        store.map Prod.fst := by
      rw [List.map_map]
      have : (Prod.fst ∘ fun p : String × Conversation =>
          if p.1 = k then (k, v) else p) = Prod.fst := by
        funext p
        by_cases hp : p.1 = k <;> simp [hp]
      rw [this]
    rw [hf]
    exact h
  · have hk : k ∉ store.map Prod.fst := by
      intro hmem
      exact hc ((dictContains_iff store k).mpr hmem)
    simp only [List.map_append, List.map_cons, List.map_nil]
    rw [List.nodup_append]
    exact ⟨h, List.nodup_singleton k, by simpa using hk⟩

theorem nodup_keys_applyCallPre (mm : MemoryManager) (c : AddCall)
    (h : (mm.memory_store.map Prod.fst).Nodup) :
    ((applyCallPre mm c).memory_store.map Prod.fst).Nodup := by
  unfold applyCallPre add_message_pre
  dsimp only
  exact nodup_keys_dictInsert _ _ _ h

theorem cleanupLoop_sublist (srt : List (String × Conversation)) :
    ∀ (maxC : Nat) (store : List (String × Conversation)),
      (cleanupLoop srt maxC store).Sublist store := by
  induction srt with
  | nil => intro maxC store; exact List.Sublist.refl _
  | cons p rest ih =>
    intro maxC store
    unfold cleanupLoop
    split_ifs with hle
    · exact List.Sublist.refl _
    · exact ((ih maxC (dictErase store p.1)).trans (List.filter_sublist _))

theorem cleanup_sublist (mm : MemoryManager) :
    (cleanup_old_conversations mm).memory_store.Sublist mm.memory_store := by
  unfold cleanup_old_conversations
  split_ifs with hle
  · exact List.Sublist.refl _
  · exact cleanupLoop_sublist _ _ _

theorem nodup_keys_cleanup (mm : MemoryManager)
    (h : (mm.memory_store.map Prod.fst).Nodup) :
    ((cleanup_old_conversations mm).memory_store.map Prod.fst).Nodup :=
  h.sublist ((cleanup_sublist mm).map Prod.fst)

theorem nodup_keys_runTrace (calls : List AddCall) :
    ∀ (mm : MemoryManager), (mm.memory_store.map Prod.fst).Nodup →
      ((runTrace mm calls).memory_store.map Prod.fst).Nodup := by
  induction calls with
  | nil => intro mm h; exact h
  | cons c rest ih =>
    intro mm h
    unfold runTrace
    simp only [List.foldl_cons]
    exact ih (applyCall mm c) (nodup_keys_cleanup _ (nodup_keys_applyCallPre mm c h))

theorem dictErase_perm (store : List (String × Conversation))
    (p : String × Conversation) (rest : List (String × Conversation))
    (hperm : store.Perm (p :: rest)) (hnd : (store.map Prod.fst).Nodup) :
    (dictErase store p.1).Perm rest := by
  have hnd2 : ((p :: rest).map Prod.fst).Nodup :=
    ((hperm.map Prod.fst).nodup_iff).mp hnd
  have hnotin : p.1 ∉ rest.map Prod.fst := by
    simp only [List.map_cons, List.nodup_cons] at hnd2
    exact hnd2.1
  have h2 := hperm.filter (fun q => q.1 ≠ p.1)
  unfold dictErase
  have h3 : (p :: rest).filter (fun q => q.1 ≠ p.1) = rest := by
    rw [List.filter_cons]
    rw [if_neg (by simp)]
    apply List.filter_eq_self.mpr
    intro q hq
    simp only [decide_eq_true_eq]
    intro hqe
    exact hnotin (hqe ▸ List.mem_map_of_mem Prod.fst hq)
  rw [h3] at h2
  exact h2

theorem cleanupLoop_perm (srt : List (String × Conversation)) :
    ∀ (maxC : Nat) (store : List (String × Conversation)),
      store.Perm srt → (store.map Prod.fst).Nodup →
      (cleanupLoop srt maxC store).Perm (srt.drop (store.length - maxC)) := by
  induction srt with
  | nil =>
    intro maxC store hperm _
    rw [List.Perm.eq_nil hperm]
    simp [cleanupLoop]
  | cons p rest ih =>
    intro maxC store hperm hnd
    unfold cleanupLoop
    split_ifs with hle
    · rw [show store.length - maxC = 0 by omega, List.drop_zero]
      exact hperm
    · have he : (dictErase store p.1).Perm rest := dictErase_perm store p rest hperm hnd
      have hnd2 : ((dictErase store p.1).map Prod.fst).Nodup :=
        hnd.sublist ((List.filter_sublist store).map Prod.fst)
      have h3 := ih maxC (dictErase store p.1) he hnd2
      have hlen : (dictErase store p.1).length = rest.length := he.length_eq
      have hlen2 : store.length = rest.length + 1 := by
        rw [hperm.length_eq]
        simp
      rw [show store.length - maxC = (dictErase store p.1).length - maxC + 1 by omega]
      rw [List.drop_succ_cons]
      exact h3

theorem cleanup_store_spec (mm : MemoryManager)
    (hnd : (mm.memory_store.map Prod.fst).Nodup) :
    (cleanup_old_conversations mm).memory_store.length ≤ mm.max_conversations ∧
    (cleanup_old_conversations mm).memory_store.Perm
      ((evictionSnapshot mm).drop
        (mm.memory_store.length - mm.max_conversations)) := by
  have hperm : mm.memory_store.Perm (evictionSnapshot mm) :=
    (List.perm_insertionSort laRel mm.memory_store).symm
  have hsnaplen : (evictionSnapshot mm).length = mm.memory_store.length :=
    (List.perm_insertionSort laRel mm.memory_store).length_eq
  unfold cleanup_old_conversations
  split_ifs with hle
  · refine ⟨hle, ?_⟩
    rw [show mm.memory_store.length - mm.max_conversations = 0 by omega,
      List.drop_zero]
    exact hperm
  · have h3 := cleanupLoop_perm (evictionSnapshot mm) mm.max_conversations
      mm.memory_store hperm hnd
    dsimp only
    refine ⟨?_, h3⟩
    rw [h3.length_eq, List.length_drop]
    omega

theorem sorted_take_drop (l : List (String × Conversation))
    (h : List.Sorted laRel l) (k : Nat) :
    ∀ p ∈ l.take k, ∀ q ∈ l.drop k, laRel p q := by
  have h2 : List.Pairwise laRel (l.take k ++ l.drop k) := by
    rwa [List.take_append_drop]
  exact (List.pairwise_append.mp h2).2.2

theorem applyCallPre_max (mm : MemoryManager) (c : AddCall) :
    (applyCallPre mm c).max_conversations = mm.max_conversations := rfl

theorem applyCall_max (mm : MemoryManager) (c : AddCall) :
    (applyCall mm c).max_conversations = mm.max_conversations := by
  show (cleanup_old_conversations (applyCallPre mm c)).max_conversations =
    mm.max_conversations
  unfold cleanup_old_conversations
  split_ifs <;> rfl

theorem runTrace_max (calls : List AddCall) :
    ∀ (mm : MemoryManager),
      (runTrace mm calls).max_conversations = mm.max_conversations := by
  induction calls with
  | nil => intro mm; rfl
  | cons c rest ih =>
    intro mm
    unfold runTrace
    simp only [List.foldl_cons]
    rw [show List.foldl applyCall (applyCall mm c) rest =
      runTrace (applyCall mm c) rest from rfl]
    rw [ih (applyCall mm c), applyCall_max]

/-- C1: for every sequence of `add_message` calls on a fresh store, after
each call the store holds at most `max_conversations` conversations, and the
eviction step of the final call removes precisely the least-recently-accessed
conversations: the survivors are a subsequence of the pre-eviction store that
is a permutation of the sorted snapshot minus its first
`len - max_conversations` entries, the removed prefix is itself ascending in
`last_accessed`, and every removed conversation has `last_accessed` at most
that of every surviving conversation — i.e. removal proceeds in ascending
`last_accessed` order, always deleting a conversation that is minimal at the
moment of eviction, until the count is within the bound.  (Quantifying over
all traces and one further call covers "after each call".) -/
theorem claim_C1 (maxC maxM : Nat) (calls : List AddCall) (c : AddCall) :
    (applyCall (runTrace (MemoryManager.init maxC maxM) calls) c).memory_store.length ≤ maxC ∧
    (applyCall (runTrace (MemoryManager.init maxC maxM) calls) c).memory_store.Sublist
      (applyCallPre (runTrace (MemoryManager.init maxC maxM) calls) c).memory_store ∧
    (applyCall (runTrace (MemoryManager.init maxC maxM) calls) c).memory_store.Perm
      ((evictionSnapshot (applyCallPre (runTrace (MemoryManager.init maxC maxM) calls) c)).drop
        ((applyCallPre (runTrace (MemoryManager.init maxC maxM) calls) c).memory_store.length - maxC)) ∧
    List.Sorted laRel
      (evictedOf (applyCallPre (runTrace (MemoryManager.init maxC maxM) calls) c)) ∧
    (∀ p ∈ evictedOf (applyCallPre (runTrace (MemoryManager.init maxC maxM) calls) c),
      ∀ q ∈ (applyCall (runTrace (MemoryManager.init maxC maxM) calls) c).memory_store,
        laRel p q) := by
  have hmax : (applyCallPre (runTrace (MemoryManager.init maxC maxM) calls) c).max_conversations = maxC := by
    rw [applyCallPre_max, runTrace_max]
    rfl
  have hnd : ((applyCallPre (runTrace (MemoryManager.init maxC maxM) calls) c).memory_store.map Prod.fst).Nodup :=
    nodup_keys_applyCallPre _ _ (nodup_keys_runTrace calls _ (by simp [MemoryManager.init]))
  have happ : applyCall (runTrace (MemoryManager.init maxC maxM) calls) c =
      cleanup_old_conversations (applyCallPre (runTrace (MemoryManager.init maxC maxM) calls) c) := rfl
  obtain ⟨hA, hC⟩ := cleanup_store_spec _ hnd
  rw [hmax] at hA hC
  have hsorted := List.sorted_insertionSort laRel
    (applyCallPre (runTrace (MemoryManager.init maxC maxM) calls) c).memory_store
  refine ⟨by rw [happ]; exact hA, by rw [happ]; exact cleanup_sublist _, by rw [happ]; exact hC, ?_, ?_⟩
  · exact List.Pairwise.sublist (List.take_sublist _ _) hsorted
  · intro p hp q hq
    rw [happ] at hq
    have hq2 := (hC.mem_iff).mp hq
    unfold evictedOf at hp
    rw [hmax] at hp
    exact sorted_take_drop _ hsorted _ p hp q hq2

/-! ### Case-map correspondence (claim C5)

`get_schema_learning` scrapes the lowercased query for `'from'`;
`get_conversation_insights` scrapes the uppercased query for `'FROM'`.
The lemmas below show the two scans walk the same positions, so the
extracted tokens agree up to ASCII letter case. -/

theorem char_beq_toNat (a b : Char) :
    (a == b) = decide (a.toNat = b.toNat) := by
  rw [Bool.beq_eq_decide_eq]
  exact decide_eq_decide.mpr char_eq_iff_toNat

theorem beq_toUpper_toLower (c u l : Char) (hu65 : 65 ≤ u.toNat)
    (hu90 : u.toNat ≤ 90) (hl : l.toNat = u.toNat + 32) :
    (u == Char.toUpper c) = (l == Char.toLower c) := by
  rw [char_beq_toNat, char_beq_toNat]
  rw [decide_eq_decide]
  rw [toNat_toUpper, toNat_toLower]
  split_ifs with h1 h2 <;> omega

theorem toUpper_toLower (c : Char) :
    Char.toUpper (Char.toLower c) = Char.toUpper c := by
  rw [char_eq_iff_toNat]
  rw [toNat_toUpper, toNat_toUpper, toNat_toLower]
  split_ifs with h1 h2 h3 <;> omega

theorem map_toUpper_map_toLower (x : List Char) :
    (x.map Char.toLower).map Char.toUpper = x.map Char.toUpper := by
  rw [List.map_map]
  congr 1
  funext c
  exact toUpper_toLower c

theorem pyIsSpace_toUpper (c : Char) :
    pyIsSpace (Char.toUpper c) = pyIsSpace c := by
  unfold pyIsSpace
  rw [decide_eq_decide]
  rw [toNat_toUpper]
  split_ifs with h <;> omega

theorem beq_toUpper_backtick (c : Char) :
    (Char.toUpper c == backtickChar) = (c == backtickChar) := by
  rw [char_beq_toNat, char_beq_toNat]
  rw [decide_eq_decide]
  rw [toNat_toUpper]
  rw [show backtickChar.toNat = 96 from char_toNat_ofNat 96 (by omega)]
  split_ifs with h <;> omega

theorem startsWith_FROM (t : List Char) :
    charsStartWith "FROM".data (t.map Char.toUpper) =
      charsStartWith "from".data (t.map Char.toLower) := by
  rw [show "FROM".data = ['F', 'R', 'O', 'M'] from rfl]
  rw [show "from".data = ['f', 'r', 'o', 'm'] from rfl]
  match t with
  | [] => rfl
  | [c1] =>
    simp [charsStartWith, beq_toUpper_toLower c1 'F' 'f' (by decide) (by decide) (by decide)]
  | [c1, c2] =>
    simp [charsStartWith,
      beq_toUpper_toLower c1 'F' 'f' (by decide) (by decide) (by decide),
      beq_toUpper_toLower c2 'R' 'r' (by decide) (by decide) (by decide)]
  | [c1, c2, c3] =>
    simp [charsStartWith,
      beq_toUpper_toLower c1 'F' 'f' (by decide) (by decide) (by decide),
      beq_toUpper_toLower c2 'R' 'r' (by decide) (by decide) (by decide),
      beq_toUpper_toLower c3 'O' 'o' (by decide) (by decide) (by decide)]
  | c1 :: c2 :: c3 :: c4 :: t4 =>
    simp [charsStartWith,
      beq_toUpper_toLower c1 'F' 'f' (by decide) (by decide) (by decide),
      beq_toUpper_toLower c2 'R' 'r' (by decide) (by decide) (by decide),
      beq_toUpper_toLower c3 'O' 'o' (by decide) (by decide) (by decide),
      beq_toUpper_toLower c4 'M' 'm' (by decide) (by decide) (by decide)]

theorem containsSub_FROM (l : List Char) :
    containsSub "FROM".data (l.map Char.toUpper) =
      containsSub "from".data (l.map Char.toLower) := by
  induction l with
  | nil => rfl
  | cons c t ih =>
    simp only [List.map_cons, containsSub]
    rw [show (Char.toUpper c :: t.map Char.toUpper) =
      (c :: t).map Char.toUpper from rfl]
    rw [show (Char.toLower c :: t.map Char.toLower) =
      (c :: t).map Char.toLower from rfl]
    rw [startsWith_FROM (c :: t), ih]

theorem splitOnGo_FROM (t : List Char) :
    ∀ (skip : Nat) (cur : List Char),
      splitOnGo "FROM".data (t.map Char.toUpper) skip (cur.map Char.toUpper) =
        (splitOnGo "from".data (t.map Char.toLower) skip
          (cur.map Char.toLower)).map (List.map Char.toUpper) := by
  induction t with
  | nil =>
    intro skip cur
    simp only [List.map_nil, splitOnGo, List.map_cons]
    rw [← List.map_reverse, ← List.map_reverse]
    rw [map_toUpper_map_toLower]
  | cons c t ih =>
    intro skip cur
    match skip with
    | skip2 + 1 =>
      simp only [List.map_cons, splitOnGo]
      exact ih skip2 cur
    | 0 =>
      simp only [List.map_cons, splitOnGo]
      rw [show (Char.toUpper c :: t.map Char.toUpper) =
        (c :: t).map Char.toUpper from rfl]
      rw [show (Char.toLower c :: t.map Char.toLower) =
        (c :: t).map Char.toLower from rfl]
      rw [startsWith_FROM (c :: t)]
      by_cases hc : charsStartWith "from".data ((c :: t).map Char.toLower) = true
      · rw [if_pos hc, if_pos hc]
        simp only [List.map_cons]
        rw [← List.map_reverse, ← List.map_reverse]
        rw [map_toUpper_map_toLower]
        rw [show ("FROM".data.length - 1) = ("from".data.length - 1) from rfl]
        have h4 := ih ("from".data.length - 1) []
        simp only [List.map_nil] at h4
        rw [h4]
      · rw [if_neg hc, if_neg hc]
        have h5 := ih 0 (c :: cur)
        simp only [List.map_cons] at h5
        exact h5

theorem splitOnGo_length_pos (p : List Char) (t : List Char) :
    ∀ (skip : Nat) (cur : List Char), 1 ≤ (splitOnGo p t skip cur).length := by
  induction t with
  | nil => intro skip cur; simp [splitOnGo]
  | cons c t ih =>
    intro skip cur
    match skip with
    | skip2 + 1 => exact ih skip2 cur
    | 0 =>
      simp only [splitOnGo]
      split_ifs with hc
      · simp
      · exact ih 0 (c :: cur)

theorem splitOnGo_length_two (a : Char) (p : List Char) (t : List Char) :
    ∀ (cur : List Char), containsSub (a :: p) t = true →
      2 ≤ (splitOnGo (a :: p) t 0 cur).length := by
  induction t with
  | nil => intro cur h; simp [containsSub, charsStartWith] at h
  | cons c t ih =>
    intro cur h
    simp only [containsSub, Bool.or_eq_true] at h
    simp only [splitOnGo]
    split_ifs with hc
    · have h9 := splitOnGo_length_pos (a :: p) t ((a :: p).length - 1) []
      rw [List.length_cons]
      exact Nat.succ_le_succ h9
    · rcases h with h | h
      · exact absurd h hc
      · exact ih (c :: cur) h

theorem isEmpty_map (f : Char → Char) (l : List Char) :
    (l.map f).isEmpty = l.isEmpty := by
  cases l <;> rfl

theorem wsSplitGo_toUpper : ∀ (t cur : List Char),
    wsSplitGo (t.map Char.toUpper) (cur.map Char.toUpper) =
      (wsSplitGo t cur).map (List.map Char.toUpper) := by
  intro t
  induction t with
  | nil =>
    intro cur
    simp only [List.map_nil, wsSplitGo]
    rw [isEmpty_map]
    split_ifs with he
    · rfl
    · rw [← List.map_reverse]
      rfl
  | cons c t ih =>
    intro cur
    simp only [List.map_cons, wsSplitGo]
    rw [pyIsSpace_toUpper c]
    by_cases hs : pyIsSpace c = true
    · rw [if_pos hs, if_pos hs]
      rw [isEmpty_map]
      by_cases he : cur.isEmpty = true
      · rw [if_pos he, if_pos he]
        have h2 := ih []
        simpa using h2
      · rw [if_neg he, if_neg he]
        have h2 := ih []
        simp only [List.map_nil] at h2
        rw [h2, ← List.map_reverse]
        rfl
    · rw [if_neg hs, if_neg hs]
      have h2 := ih (c :: cur)
      simpa using h2

theorem pyStripChar_toUpper (t : List Char) :
    pyStripChar (t.map Char.toUpper) backtickChar =
      (pyStripChar t backtickChar).map Char.toUpper := by
  unfold pyStripChar
  have hfun : ((fun c : Char => c == backtickChar) ∘ Char.toUpper) =
      (fun c : Char => c == backtickChar) := by
    funext c
    exact beq_toUpper_backtick c
  rw [List.dropWhile_map, hfun, ← List.map_reverse, List.dropWhile_map, hfun,
    ← List.map_reverse]

/-- C5, counterexample: the claim fails on the stored query
`"select * from orders"` — `get_schema_learning` derives and accepts the
lowercased token `"orders"` while `get_conversation_insights` tallies
`"ORDERS"`, a different string — and the acceptance conditions differ: a
50-character table token is rejected by `get_schema_learning` (empty
`tables`) yet tallied unconditionally by `get_conversation_insights`. -/
theorem claim_C5_cex :
    (get_schema_learning exC5 2 "s" "db").2 =
      Except.ok { tables := ["orders"], columns := [], common_filters := [] } ∧
    (get_conversation_insights exC5 2 "s" "db").2.toOption.map Insights.table_usage =
      some [("ORDERS", 1)] ∧
    ("orders" : String) ≠ "ORDERS" ∧
    (get_schema_learning exC5b 2 "s" "db").2 =
      Except.ok { tables := [], columns := [], common_filters := [] } ∧
    (get_conversation_insights exC5b 2 "s" "db").2.toOption.map Insights.table_usage =
      some [(longTable, 1)] := by
  refine ⟨rfl, rfl, by decide, rfl, rfl⟩

/-- C5, amended: for every `sql_query` made of ASCII characters, the two
operations locate the candidate token identically — the first
whitespace-delimited token after the first case-insensitive occurrence of
`from`, stripped of backticks — but each reads its own case-normalized copy
of the query: the token `get_conversation_insights` extracts is exactly the
uppercase image of the raw token `get_schema_learning` extracts (including
agreement of the skip and `IndexError` outcomes), so the two strings agree
only up to letter case; and only `get_schema_learning` filters the token
through the non-empty/under-50-characters acceptance check,
`get_conversation_insights` accepting every extracted token.
The ASCII hypothesis delimits where this embedding models the program
exactly: beyond ASCII, Python's full Unicode case mapping can make the two
scans disagree even about whether a `from` keyword is present at all (see
the caveats on `schemaRawCandidate` and `insightsCandidate`), so no
correspondence is asserted there. -/
theorem claim_C5 (sql : String) (_hascii : ∀ c ∈ sql.data, c.toNat < 128) :
    insightsCandidate sql.data =
      Except.map (Option.map (List.map Char.toUpper))
        (schemaRawCandidate sql.data) ∧
    schemaCandidate sql.data =
      Except.map
        (fun o => o.bind (fun t => if t ≠ [] ∧ t.length < 50 then some t else none))
        (schemaRawCandidate sql.data) := by
  constructor
  · unfold insightsCandidate schemaRawCandidate
    dsimp only
    rw [containsSub_FROM sql.data]
    by_cases hc : containsSub "from".data (sql.data.map Char.toLower) = true
    · rw [if_pos hc, if_pos hc]
      have hsplit : pySplitOn (sql.data.map Char.toUpper) "FROM".data =
          (pySplitOn (sql.data.map Char.toLower) "from".data).map
            (List.map Char.toUpper) := by
        unfold pySplitOn
        rw [if_neg (by decide : ¬"FROM".data.isEmpty = true)]
        rw [if_neg (by decide : ¬"from".data.isEmpty = true)]
        have h3 := splitOnGo_FROM sql.data 0 []
        simpa using h3
      rw [hsplit, List.get?_map]
      have hlen : 2 ≤ (pySplitOn (sql.data.map Char.toLower) "from".data).length := by
        unfold pySplitOn
        rw [if_neg (by decide : ¬"from".data.isEmpty = true)]
        exact splitOnGo_length_two 'f' ['r', 'o', 'm']
          (sql.data.map Char.toLower) [] hc
      cases hget : (pySplitOn (sql.data.map Char.toLower) "from".data).get? 1 with
      | none => exact absurd (List.get?_eq_none.mp hget) (by omega)
      | some part1 =>
        dsimp only [Option.map]
        have hws : pySplitWs (part1.map Char.toUpper) =
            (pySplitWs part1).map (List.map Char.toUpper) := by
          unfold pySplitWs
          have h4 := wsSplitGo_toUpper part1 []
          simpa using h4
        rw [hws, List.head?_map]
        cases hh : (pySplitWs part1).head? with
        | none => rfl
        | some tok =>
          dsimp only [Option.map]
          rw [pyStripChar_toUpper tok]
          rfl
    · rw [if_neg hc, if_neg hc]
      rfl
  · rfl

/-- C5 (amended), witness: the correspondence applied to the concrete ASCII
query `"select * from orders"`, discharging the ASCII hypothesis there. -/
theorem claim_C5_witness :
    insightsCandidate "select * from orders".data =
      Except.map (Option.map (List.map Char.toUpper))
        (schemaRawCandidate "select * from orders".data) ∧
    schemaCandidate "select * from orders".data =
      Except.map
        (fun o => o.bind (fun t => if t ≠ [] ∧ t.length < 50 then some t else none))
        (schemaRawCandidate "select * from orders".data) :=
  claim_C5 "select * from orders" (by decide)

end MemAgent
